import Mathlib

/-!
Verification development for the odf-batch-styler repository.

The repository contains two near-identical variants of the same batch
ODF-styling tool, `src/styler.py` and `src/editor.py`.  Both define a
`StyleImporter` and a `RegexStyler` document modifier plus a
`BatchProcessor` driving them over a list of files.  This file gives a
shallow embedding of both variants; the `Styler` namespace follows
`src/styler.py` and the `Editor` namespace follows `src/editor.py`.

Modelling choices:
* strings are lists of characters (`Str`);
* regular expressions are embedded as the small deterministic pattern
  language `Pattern` (literal pieces, a capturing group over a literal,
  and a capturing group matching the whole remainder, standing for a
  trailing `(.*)`); `searchFrom` is Python's `re.search` (leftmost
  match, full match text plus the text of group 1 when the pattern has
  a capturing group);
* a paragraph is a paragraph-level style attribute plus a list of
  nodes, a node being either character data or an inline span with its
  own children (`Node`/`NodeList`); `text_recursive`, `remove_tree`
  (strip span elements keeping their character data, which adjacent
  XML text merges into one text node) and `set_span` (wrap every
  leftmost non-overlapping occurrence of the pattern inside each text
  leaf, recursing into existing spans, returning the number of spans
  created) follow the odfdo operations used by the source;
* a document is a style table (elements carrying family and name,
  either a genuine style or some other element kind, mirroring the lax
  `get_style` lookup) plus a body given by its paragraphs;
* printing is ignored; file-system interaction is explicit: the glob
  result is a list of (file name, document) pairs and the reference
  document store is a function from path to `Except` document;
* a Python exception that no handler catches is an `Except.error`.
-/

namespace ODF

abbrev Str := List Char

def chars (s : String) : Str := s.data

/-- Simplified regular-expression pieces: a literal, a capturing group
over a literal, and a capturing group matching the whole remaining
text (a trailing `(.*)`). -/
inductive Piece
  | lit (s : Str)
  | grp (s : Str)
  | grpAll
deriving DecidableEq

abbrev Pattern := List Piece

/-- Boolean prefix test on character lists. -/
def strPre : Str → Str → Bool
  | [], _ => true
  | _ :: _, [] => false
  | a :: as, b :: bs => decide (a = b) && strPre as bs

/-- Match a pattern at the start of `t`; returns the full matched text
and the text of capturing group 1 (when the pattern has a group). -/
def matchAt : Pattern → Str → Option (Str × Option Str)
  | [], _ => some ([], none)
  | Piece.lit s :: ps, t =>
    if strPre s t then (matchAt ps (t.drop s.length)).map (fun r => (s ++ r.1, r.2)) else none
  | Piece.grp s :: ps, t =>
    if strPre s t then (matchAt ps (t.drop s.length)).map (fun r => (s ++ r.1, some s)) else none
  | Piece.grpAll :: ps, t =>
    (matchAt ps []).map (fun r => (t ++ r.1, some t))

/-- Python's `re.search`: leftmost match of the pattern in `t`. -/
def searchFrom (p : Pattern) : Str → Option (Str × Option Str)
  | [] => matchAt p []
  | c :: rest =>
    match matchAt p (c :: rest) with
    | some r => some r
    | none => searchFrom p rest

/-- The `content=` paragraph filter of `get_paragraphs`. -/
def contentMatches (p : Pattern) (t : Str) : Bool := (searchFrom p t).isSome

/-- Leftmost match of the pattern in `t` returned as the text before
the match, the matched text, and the text after the match. -/
def splitSearch (p : Pattern) : Str → Option (Str × Str × Str)
  | [] => (matchAt p []).map (fun r => (([] : Str), r.1, List.drop r.1.length ([] : Str)))
  | c :: rest =>
    match matchAt p (c :: rest) with
    | some r => some (([] : Str), r.1, List.drop r.1.length (c :: rest))
    | none => (splitSearch p rest).map (fun x => (c :: x.1, x.2.1, x.2.2))

mutual
/-- Inline content of a paragraph: character data or a span element. -/
inductive Node
  | text (s : Str)
  | span (style : Str) (children : NodeList)
deriving DecidableEq
/-- A list of inline nodes. -/
inductive NodeList
  | nil
  | cons (n : Node) (ns : NodeList)
deriving DecidableEq
end

def nlAppend : NodeList → NodeList → NodeList
  | .nil, b => b
  | .cons n ns, b => .cons n (nlAppend ns b)

/-- Build a `NodeList` from a `List Node` (for writing inputs). -/
def nl : List Node → NodeList
  | [] => .nil
  | n :: ns => .cons n (nl ns)

mutual
/-- Recursive character data of a node (odfdo `text_recursive`). -/
def nodeText : Node → Str
  | .text s => s
  | .span _ cs => nodesText cs
/-- Recursive character data of a node list. -/
def nodesText : NodeList → Str
  | .nil => []
  | .cons n ns => nodeText n ++ nodesText ns
end

mutual
/-- Number of span elements in a node, nested spans included. -/
def spanCountNode : Node → Nat
  | .text _ => 0
  | .span _ cs => 1 + spanCountNodes cs
/-- Number of span elements in a node list, nested spans included. -/
def spanCountNodes : NodeList → Nat
  | .nil => 0
  | .cons n ns => spanCountNode n + spanCountNodes ns
end

mutual
/-- Recursive texts of all span elements in a node. -/
def spanTextsNode : Node → List Str
  | .text _ => []
  | .span _ cs => nodesText cs :: spanTextsNodes cs
/-- Recursive texts of all span elements in a node list. -/
def spanTextsNodes : NodeList → List Str
  | .nil => []
  | .cons n ns => spanTextsNode n ++ spanTextsNodes ns
end

/-- A paragraph: its paragraph-level style attribute and its inline
content. -/
structure Para where
  style : Option Str
  nodes : NodeList
deriving DecidableEq

/-- odfdo `paragraph.text_recursive`. -/
def text_recursive (q : Para) : Str := nodesText q.nodes

/-- odfdo `remove_tree(para, Span)`: strip span elements, keeping
their character data (which XML merges into the surrounding text). -/
def remove_tree (q : Para) : Para :=
  { style := q.style, nodes := .cons (.text (text_recursive q)) .nil }

/-- Wrap every leftmost non-overlapping occurrence of the pattern in a
text run with a new span of the given style; fuel-driven recursion on
the remaining text. -/
def wrapTextF (style : Str) (p : Pattern) : Nat → Str → NodeList × Nat
  | 0, t => (.cons (.text t) .nil, 0)
  | fuel + 1, t =>
    match splitSearch p t with
    | none => (.cons (.text t) .nil, 0)
    | some (pre, m, rest) =>
      if m = [] then (.cons (.text t) .nil, 0)
      else
        let r := wrapTextF style p fuel rest
        (.cons (.text pre) (.cons (.span style (.cons (.text m) .nil)) r.1), r.2 + 1)

def wrapText (style : Str) (p : Pattern) (t : Str) : NodeList × Nat :=
  wrapTextF style p (t.length + 1) t

mutual
/-- `set_span` on one node: wrap pattern occurrences inside a text
leaf, recurse inside an existing span. -/
def setSpanNode (style : Str) (p : Pattern) : Node → NodeList × Nat
  | .text s => wrapText style p s
  | .span st cs =>
    let a := setSpanNodes style p cs
    (.cons (.span st a.1) .nil, a.2)
/-- `set_span` on a node list. -/
def setSpanNodes (style : Str) (p : Pattern) : NodeList → NodeList × Nat
  | .nil => (.nil, 0)
  | .cons n ns =>
    let a := setSpanNode style p n
    let b := setSpanNodes style p ns
    (nlAppend a.1 b.1, a.2 + b.2)
end

/-- odfdo `paragraph.set_span(style_name, regex=...)`: returns the
modified paragraph and the number of spans created (the length of the
span list that the library call returns). -/
def set_span (q : Para) (style : Str) (p : Pattern) : Para × Nat :=
  let a := setSpanNodes style p q.nodes
  ({ style := q.style, nodes := a.1 }, a.2)

/-- A style-table element: a genuine style object or some other
element kind that a lax lookup may return. -/
inductive Element
  | style (family name content : Str)
  | other (family name tag : Str)
deriving DecidableEq

def elemFamily : Element → Str
  | .style f _ _ => f
  | .other f _ _ => f

def elemName : Element → Str
  | .style _ n _ => n
  | .other _ n _ => n

/-- A document: its style table and its body paragraphs. -/
structure ODoc where
  styles : List Element
  paras : List Para
deriving DecidableEq

/-- `doc.get_style(family, name)`: lax lookup in the style table. -/
def get_style (d : ODoc) (family name : Str) : Option Element :=
  d.styles.find? (fun e => decide (elemFamily e = family ∧ elemName e = name))

/-- Is there a text-family style of this name
(`doc.get_style(family='text', name_or_element=style_name)` used as a
truth value)? -/
def textStyleExists (d : ODoc) (name : Str) : Bool :=
  (get_style d (chars "text") name).isSome

/-- `doc.insert_style(style)`: replace any element of the same family
and name, then add the new style. -/
def insert_style (d : ODoc) (e : Element) : ODoc :=
  let keep := fun x => !decide (elemFamily x = elemFamily e ∧ elemName x = elemName e)
  { d with styles := d.styles.filter keep ++ [e] }

/-- An action-log outcome: a status string or an integer match count
(`isinstance(info, int)` separates the two). -/
inductive Info
  | str (s : Str)
  | int (n : Nat)
deriving DecidableEq

/-- The paragraph produced by the no-text-style fallback branch of
`RegexStyler.apply`: `remove_tree(para, Span)` followed by
`para.style = self.style_name`. -/
def fallbackPara (name : Str) (q : Para) : Para :=
  { style := some name, nodes := .cons (.text (text_recursive q)) .nil }

def qChar : Char := Char.ofNat 39

/-- The `RegexStyler` log label (identical in the two variants). -/
def appliedLabel (name : Str) : Str :=
  chars "Applied " ++ [qChar] ++ name ++ [qChar]

def successMsg : Str := chars "Success"

def notFoundMsg : Str := chars "Not found in source"

def errMsg (e : Str) : Str := chars "Error: " ++ e

/-- The uncaught exception raised by `re.search(...).group(1)` when
the search returns `None`. -/
def attrErr : Str := chars "AttributeError"

/-- The uncaught exception raised by `totals.get(label, 0) + info`
when the stored value is not an integer. -/
def typeErr : Str := chars "TypeError"

/-- A file name as `pathlib` decomposes it: parent directory, stem,
and extension (`path.suffix`, dot included). -/
structure FileName where
  dir : Str
  stem : Str
  ext : Str
deriving DecidableEq

/-- `path.parent / f"{path.stem}{output_suffix}{path.suffix}"`. -/
def outPath (f : FileName) (sfx : Str) : Str :=
  f.dir ++ [Char.ofNat 47] ++ f.stem ++ sfx ++ f.ext

/-- The original path of a file. -/
def inPath (f : FileName) : Str :=
  f.dir ++ [Char.ofNat 47] ++ f.stem ++ f.ext

/-- Accumulated totals: an insertion-ordered association list, like a
Python dict. -/
def lookupTotal : List (Str × Info) → Str → Option Info
  | [], _ => none
  | (k, v) :: rest, l => if k = l then some v else lookupTotal rest l

def setTotal : List (Str × Info) → Str → Info → List (Str × Info)
  | [], l, v => [(l, v)]
  | (k, w) :: rest, l, v =>
    if k = l then (l, v) :: rest else (k, w) :: setTotal rest l v

/-- The outcome of a whole batch run: the output files written (path
and saved document) and the final totals map. -/
structure RunResult where
  written : List (Str × ODoc)
  totals : List (Str × Info)
deriving DecidableEq

end ODF

namespace Styler

open ODF

/-- The `StyleImporter` log label of `src/styler.py`:
`f"Import {family} style: {style_name}"`. -/
def importLabel (family name : Str) : Str :=
  chars "Import " ++ family ++ chars " style: " ++ name

/-- `StyleImporter.apply` of `src/styler.py`: open the reference
document, look the style up laxly, insert it only when the lookup
returned a genuine style object; every exception from the document
store is caught and becomes an `Error:` outcome. -/
def importApply (store : Str → Except Str ODoc) (doc : ODoc)
    (style_name family source_file : Str) : ODoc × List (Str × Info) :=
  match store source_file with
  | .error e => (doc, [(importLabel family style_name, Info.str (errMsg e))])
  | .ok ref =>
    match get_style ref family style_name with
    | some (Element.style f n c) =>
      (insert_style doc (Element.style f n c),
       [(importLabel family style_name, Info.str successMsg)])
    | _ => (doc, [(importLabel family style_name, Info.str notFoundMsg)])

/-- The paragraph loop of `RegexStyler.apply` in `src/styler.py`.
`regex0` is the pattern the paragraph list was filtered with (the
value of `self.regex` when `get_paragraphs` ran); `r` is the current
value of the mutable `self.regex` field; `c` is `match_count`.  In the
text-style branch the code runs
`re.search(self.regex, para.text_recursive).group(1)` guarded only by
`except IndexError`: a search returning `None` raises an uncaught
`AttributeError`, while a match without a capturing group is silently
ignored; a successful group lookup overwrites `self.regex` with the
captured text. -/
def go (doc : ODoc) (name : Str) (regex0 : Pattern) :
    Pattern → Nat → List Para → Except Str (List Para × Pattern × Nat)
  | r, c, [] => .ok ([], r, c)
  | r, c, q :: rest =>
    if contentMatches regex0 (text_recursive q) then
      if textStyleExists doc name then
        match searchFrom r (text_recursive q) with
        | none => .error attrErr
        | some (_m, g?) =>
          let r1 := match g? with
            | some g => [Piece.lit g]
            | none => r
          let a := set_span q name r1
          match go doc name regex0 r1 (c + a.2) rest with
          | .error e => .error e
          | .ok (ps, rr, cc) => .ok (a.1 :: ps, rr, cc)
      else
        match go doc name regex0 r (c + 1) rest with
        | .error e => .error e
        | .ok (ps, rr, cc) => .ok (fallbackPara name q :: ps, rr, cc)
    else
      match go doc name regex0 r c rest with
      | .error e => .error e
      | .ok (ps, rr, cc) => .ok (q :: ps, rr, cc)

/-- `RegexStyler.apply` of `src/styler.py`: one rule per modifier. -/
def regexApply (doc : ODoc) (name : Str) (p : Pattern) :
    Except Str (ODoc × List (Str × Info)) :=
  match go doc name p p 0 doc.paras with
  | .error e => .error e
  | .ok (ps, _, c) =>
    .ok ({ doc with paras := ps }, [(appliedLabel name, Info.int c)])

/-- One configured modifier of `src/styler.py`'s `main`. -/
inductive Config
  | importStyle (style_name family source_file : Str)
  | regexStyle (style_name : Str) (regex : Pattern)

/-- Instantiate and apply one modifier. -/
def applyConfig (store : Str → Except Str ODoc) (doc : ODoc) :
    Config → Except Str (ODoc × List (Str × Info))
  | Config.importStyle n fam src => .ok (importApply store doc n fam src)
  | Config.regexStyle n p => regexApply doc n p

/-- Apply every configured modifier in order, concatenating logs. -/
def applyAll (store : Str → Except Str ODoc) (doc : ODoc) :
    List Config → Except Str (ODoc × List (Str × Info))
  | [] => .ok (doc, [])
  | cfg :: rest =>
    match applyConfig store doc cfg with
    | .error e => .error e
    | .ok (d1, lg1) =>
      match applyAll store d1 rest with
      | .error e => .error e
      | .ok (d2, lg2) => .ok (d2, lg1 ++ lg2)

/-- The totals update of `src/styler.py` (lines 120-125): integer
outcomes add onto `totals.get(label, 0)` (a `TypeError` escapes when
the stored value is a string), other outcomes overwrite. -/
def updateTotal (ts : List (Str × Info)) (l : Str) :
    Info → Except Str (List (Str × Info))
  | Info.int n =>
    match lookupTotal ts l with
    | none => .ok (setTotal ts l (Info.int n))
    | some (Info.int m) => .ok (setTotal ts l (Info.int (m + n)))
    | some (Info.str _) => .error typeErr
  | Info.str s => .ok (setTotal ts l (Info.str s))

def mergeTotals : List (Str × Info) → List (Str × Info) →
    Except Str (List (Str × Info))
  | ts, [] => .ok ts
  | ts, (l, i) :: rest =>
    match updateTotal ts l i with
    | .error e => .error e
    | .ok ts1 => mergeTotals ts1 rest

/-- The file loop of `BatchProcessor.run` in `src/styler.py`: a dry
run only skips the save — the document is still opened, every
modifier still runs, and the totals are still updated. -/
def runGo (store : Str → Except Str ODoc) (cfgs : List Config)
    (sfx : Str) (dry : Bool) :
    List (FileName × ODoc) → List (Str × ODoc) → List (Str × Info) →
    Except Str RunResult
  | [], w, t => .ok ⟨w, t⟩
  | (f, d) :: rest, w, t =>
    match applyAll store d cfgs with
    | .error e => .error e
    | .ok (d1, logs) =>
      match mergeTotals t logs with
      | .error e => .error e
      | .ok t1 =>
        runGo store cfgs sfx dry rest
          (if dry then w else w ++ [(outPath f sfx, d1)]) t1

/-- `BatchProcessor.run` of `src/styler.py`. -/
def run (store : Str → Except Str ODoc) (files : List (FileName × ODoc))
    (cfgs : List Config) (dry : Bool) (sfx : Str) : Except Str RunResult :=
  runGo store cfgs sfx dry files [] []

end Styler

namespace Editor

open ODF

/-- The `StyleImporter` log label of `src/editor.py`:
`f"Import {family}: {style_name}"`. -/
def importLabel (family name : Str) : Str :=
  chars "Import " ++ family ++ chars ": " ++ name

/-- `StyleImporter.apply` of `src/editor.py` (same logic as the styler
variant, different label). -/
def importApply (store : Str → Except Str ODoc) (doc : ODoc)
    (style_name family source_file : Str) : ODoc × List (Str × Info) :=
  match store source_file with
  | .error e => (doc, [(importLabel family style_name, Info.str (errMsg e))])
  | .ok ref =>
    match get_style ref family style_name with
    | some (Element.style f n c) =>
      (insert_style doc (Element.style f n c),
       [(importLabel family style_name, Info.str successMsg)])
    | _ => (doc, [(importLabel family style_name, Info.str notFoundMsg)])

/-- The per-paragraph body of `RegexStyler.apply` in `src/editor.py`:
for a paragraph matched by the content filter, first
`remove_tree(para, Span)`, then either `set_span` (when a text-family
style of that name exists) or the paragraph-level fallback. -/
def processPara (doc : ODoc) (name : Str) (p : Pattern) (q : Para) : Para × Nat :=
  if contentMatches p (text_recursive q) then
    if textStyleExists doc name then set_span (remove_tree q) name p
    else (fallbackPara name q, 1)
  else (q, 0)

/-- One rule of `RegexStyler.apply` in `src/editor.py` over the body
paragraphs, summing `match_count`. -/
def ruleApply (doc : ODoc) (name : Str) (p : Pattern) :
    List Para → List Para × Nat
  | [] => ([], 0)
  | q :: rest =>
    let a := processPara doc name p q
    let b := ruleApply doc name p rest
    (a.1 :: b.1, a.2 + b.2)

/-- `RegexStyler.apply` of `src/editor.py`: a list of rules, one log
entry per rule. -/
def regexApply (doc : ODoc) : List (Str × Pattern) → ODoc × List (Str × Info)
  | [] => (doc, [])
  | (n, p) :: rest =>
    let a := ruleApply doc n p doc.paras
    let b := regexApply { doc with paras := a.1 } rest
    (b.1, (appliedLabel n, Info.int a.2) :: b.2)

/-- One configured modifier of `src/editor.py`'s `main`. -/
inductive Config
  | importStyle (style_name family source_file : Str)
  | regexStyle (rules : List (Str × Pattern))

def applyConfig (store : Str → Except Str ODoc) (doc : ODoc) :
    Config → ODoc × List (Str × Info)
  | Config.importStyle n fam src => importApply store doc n fam src
  | Config.regexStyle rules => regexApply doc rules

def applyAll (store : Str → Except Str ODoc) (doc : ODoc) :
    List Config → ODoc × List (Str × Info)
  | [] => (doc, [])
  | cfg :: rest =>
    let a := applyConfig store doc cfg
    let b := applyAll store a.1 rest
    (b.1, a.2 ++ b.2)

/-- Stored integer total for a label, `totals.get(label, 0)`; in this
variant only integers are ever stored. -/
def getIntTotal (ts : List (Str × Info)) (l : Str) : Nat :=
  match lookupTotal ts l with
  | some (Info.int m) => m
  | _ => 0

/-- The totals update of `src/editor.py` (lines 121-122): only
integer outcomes are recorded; status outcomes are dropped. -/
def updateTotal (ts : List (Str × Info)) (l : Str) : Info → List (Str × Info)
  | Info.int n => setTotal ts l (Info.int (getIntTotal ts l + n))
  | Info.str _ => ts

def mergeTotals : List (Str × Info) → List (Str × Info) → List (Str × Info)
  | ts, [] => ts
  | ts, (l, i) :: rest => mergeTotals (updateTotal ts l i) rest

/-- The file loop of `BatchProcessor.run` in `src/editor.py`: a dry
run `continue`s before the document is opened, so nothing at all
happens for that file; otherwise modifiers run and the document is
saved at the suffixed output path. -/
def runGo (store : Str → Except Str ODoc) (cfgs : List Config)
    (sfx : Str) (dry : Bool) :
    List (FileName × ODoc) → List (Str × ODoc) → List (Str × Info) → RunResult
  | [], w, t => ⟨w, t⟩
  | (f, d) :: rest, w, t =>
    if dry then runGo store cfgs sfx dry rest w t
    else
      let a := applyAll store d cfgs
      runGo store cfgs sfx dry rest
        (w ++ [(outPath f sfx, a.1)]) (mergeTotals t a.2)

/-- `BatchProcessor.run` of `src/editor.py`. -/
def run (store : Str → Except Str ODoc) (files : List (FileName × ODoc))
    (cfgs : List Config) (dry : Bool) (sfx : Str) : RunResult :=
  runGo store cfgs sfx dry files [] []

end Editor

namespace ODF

/-- The `type(source_style) == Style` test of `StyleImporter.apply`
applied to the result of the lax lookup. -/
def isStyleElem : Option Element → Bool
  | some (Element.style _ _ _) => true
  | _ => false

/-- Structural induction principle for `NodeList` that does not
recurse into span children (they are carried along unchanged). -/
def nlInd {motive : NodeList → Prop} (base : motive .nil)
    (step : ∀ n ns, motive ns → motive (.cons n ns)) : ∀ ns, motive ns
  | .nil => base
  | .cons n ns => step n ns (nlInd base step ns)

/-- Concrete material shared by the claim instances below. -/
def nameS : Str := chars "S"

/-- A text-family style named `S`. -/
def styleS : Element := Element.style (chars "text") nameS (chars "c")

/-- A sample input file `d/a.odt`. -/
def fileA : FileName := ⟨chars "d", chars "a", chars ".odt"⟩

/-- A document store in which every open fails. -/
def storeFail : Str → Except Str ODoc := fun _ => .error (chars "no such file")

/-- A document store that always yields an empty document. -/
def storeEmptyRef : Str → Except Str ODoc := fun _ => .ok ⟨[], []⟩

/-- One plain paragraph `AB`, style `S` available as a text style. -/
def docAB : ODoc := ⟨[styleS], [⟨none, .cons (.text (chars "AB")) .nil⟩]⟩

/-- One plain paragraph `ab`, style `S` available as a text style. -/
def docab : ODoc := ⟨[styleS], [⟨none, .cons (.text (chars "ab")) .nil⟩]⟩

/-- Two paragraphs `U:ab` and `U:abcd`, style `S` available. -/
def docU2 : ODoc :=
  ⟨[styleS], [⟨none, .cons (.text (chars "U:ab")) .nil⟩,
              ⟨none, .cons (.text (chars "U:abcd")) .nil⟩]⟩

/-- Two paragraphs `U:ab` and `U:xy`, style `S` available. -/
def docUxy : ODoc :=
  ⟨[styleS], [⟨none, .cons (.text (chars "U:ab")) .nil⟩,
              ⟨none, .cons (.text (chars "U:xy")) .nil⟩]⟩

/-- The pattern `U:(.*)`: a literal `U:` followed by a capturing group
matching the rest. -/
def patU : Pattern := [Piece.lit (chars "U:"), Piece.grpAll]

/-- One paragraph `ab` and no styles at all. -/
def docNoStyle : ODoc := ⟨[], [⟨none, .cons (.text (chars "ab")) .nil⟩]⟩

/-- Two paragraphs `xab` and `zz`, no styles at all. -/
def docTwo : ODoc :=
  ⟨[], [⟨none, .cons (.text (chars "xab")) .nil⟩,
        ⟨none, .cons (.text (chars "zz")) .nil⟩]⟩

theorem nlAppend_nil : ∀ a, nlAppend a .nil = a := by
  intro a
  induction a using nlInd with
  | base => rfl
  | step n ns ih => simp [nlAppend, ih]

theorem nodesText_nlAppend : ∀ a b, nodesText (nlAppend a b) = nodesText a ++ nodesText b := by
  intro a b
  induction a using nlInd with
  | base => simp [nlAppend, nodesText]
  | step n ns ih => simp [nlAppend, nodesText, ih]

theorem strPre_append : ∀ s t : Str, strPre s t = true → s ++ List.drop s.length t = t := by
  intro s
  induction s with
  | nil => intro t _; simp
  | cons a as ih =>
    intro t h
    cases t with
    | nil => simp [strPre] at h
    | cons b bs =>
      simp only [strPre, Bool.and_eq_true, decide_eq_true_eq] at h
      obtain ⟨rfl, h2⟩ := h
      simp only [List.cons_append, List.length_cons, List.drop_succ_cons, List.cons.injEq,
        true_and]
      exact ih bs h2

theorem matchAt_pre : ∀ (p : Pattern) (t : Str) (r : Str × Option Str),
    matchAt p t = some r → ∃ u, r.1 ++ u = t := by
  intro p
  induction p with
  | nil =>
    intro t r h
    simp only [matchAt, Option.some.injEq] at h
    exact ⟨t, by simp [← h]⟩
  | cons piece ps ih =>
    cases piece with
    | lit s =>
      intro t r h
      simp only [matchAt] at h
      by_cases hp : strPre s t
      · rw [if_pos hp] at h
        cases hm : matchAt ps (List.drop s.length t) with
        | none => rw [hm] at h; simp at h
        | some r1 =>
          rw [hm] at h
          simp only [Option.map_some', Option.some.injEq] at h
          obtain ⟨u, hu⟩ := ih _ r1 hm
          refine ⟨u, ?_⟩
          rw [← h]
          calc (s ++ r1.1) ++ u = s ++ (r1.1 ++ u) := by simp [List.append_assoc]
            _ = s ++ List.drop s.length t := by rw [hu]
            _ = t := strPre_append s t hp
      · rw [if_neg hp] at h; simp at h
    | grp s =>
      intro t r h
      simp only [matchAt] at h
      by_cases hp : strPre s t
      · rw [if_pos hp] at h
        cases hm : matchAt ps (List.drop s.length t) with
        | none => rw [hm] at h; simp at h
        | some r1 =>
          rw [hm] at h
          simp only [Option.map_some', Option.some.injEq] at h
          obtain ⟨u, hu⟩ := ih _ r1 hm
          refine ⟨u, ?_⟩
          rw [← h]
          calc (s ++ r1.1) ++ u = s ++ (r1.1 ++ u) := by simp [List.append_assoc]
            _ = s ++ List.drop s.length t := by rw [hu]
            _ = t := strPre_append s t hp
      · rw [if_neg hp] at h; simp at h
    | grpAll =>
      intro t r h
      simp only [matchAt] at h
      cases hm : matchAt ps [] with
      | none => rw [hm] at h; simp at h
      | some r1 =>
        rw [hm] at h
        simp only [Option.map_some', Option.some.injEq] at h
        obtain ⟨u, hu⟩ := ih _ r1 hm
        have h1 : r1.1 = [] := (List.append_eq_nil.mp hu).1
        refine ⟨[], ?_⟩
        rw [← h]
        simp [h1]

theorem splitSearch_eq : ∀ (t : Str) (p : Pattern) (x : Str × Str × Str),
    splitSearch p t = some x → x.1 ++ x.2.1 ++ x.2.2 = t := by
  intro t
  induction t with
  | nil =>
    intro p x h
    simp only [splitSearch] at h
    cases hm : matchAt p [] with
    | none => rw [hm] at h; simp at h
    | some r =>
      rw [hm] at h
      simp only [Option.map_some', Option.some.injEq] at h
      obtain ⟨u, hu⟩ := matchAt_pre p [] r hm
      have h1 : r.1 = [] := (List.append_eq_nil.mp hu).1
      rw [← h]
      simp [h1]
  | cons c cs ih =>
    intro p x h
    simp only [splitSearch] at h
    cases hm : matchAt p (c :: cs) with
    | some r =>
      rw [hm] at h
      simp only [Option.some.injEq] at h
      obtain ⟨u, hu⟩ := matchAt_pre p (c :: cs) r hm
      rw [← h]
      simp only [List.nil_append]
      have hdrop : List.drop r.1.length (c :: cs) = u := by
        rw [← hu, List.drop_left]
      rw [hdrop, hu]
    | none =>
      rw [hm] at h
      cases hs : splitSearch p cs with
      | none => rw [hs] at h; simp at h
      | some y =>
        rw [hs] at h
        simp only [Option.map_some', Option.some.injEq] at h
        have := ih p y hs
        rw [← h]
        simp only [List.cons_append, List.cons.injEq, true_and]
        exact this

theorem matchAt_lit (g t : Str) :
    matchAt [Piece.lit g] t = if strPre g t then some (g ++ [], none) else none := by
  by_cases h : strPre g t <;> simp [matchAt, h]

theorem splitSearch_lit : ∀ (t g : Str) (x : Str × Str × Str),
    splitSearch [Piece.lit g] t = some x → x.2.1 = g := by
  intro t
  induction t with
  | nil =>
    intro g x h
    simp only [splitSearch, matchAt_lit] at h
    by_cases hp : strPre g []
    · rw [if_pos hp] at h
      simp only [Option.map_some', Option.some.injEq] at h
      rw [← h]
      simp
    · rw [if_neg hp] at h; simp at h
  | cons c cs ih =>
    intro g x h
    simp only [splitSearch, matchAt_lit] at h
    by_cases hp : strPre g (c :: cs)
    · rw [if_pos hp] at h
      simp only [Option.some.injEq] at h
      rw [← h]
      simp
    · rw [if_neg hp] at h
      cases hs : splitSearch [Piece.lit g] cs with
      | none => rw [hs] at h; simp at h
      | some y =>
        rw [hs] at h
        simp only [Option.map_some', Option.some.injEq] at h
        have := ih g y hs
        rw [← h]
        exact this

theorem searchFrom_lit : ∀ (t g : Str) (r : Str × Option Str),
    searchFrom [Piece.lit g] t = some r → r = (g ++ [], none) := by
  intro t
  induction t with
  | nil =>
    intro g r h
    simp only [searchFrom, matchAt_lit] at h
    by_cases hp : strPre g []
    · rw [if_pos hp] at h; simp at h; simp [← h]
    · rw [if_neg hp] at h; simp at h
  | cons c cs ih =>
    intro g r h
    simp only [searchFrom, matchAt_lit] at h
    by_cases hp : strPre g (c :: cs)
    · rw [if_pos hp] at h
      simp only [Option.some.injEq] at h
      exact h.symm
    · rw [if_neg hp] at h
      exact ih g r h

theorem wrapTextF_text (st : Str) (p : Pattern) :
    ∀ fuel t, nodesText (wrapTextF st p fuel t).1 = t := by
  intro fuel
  induction fuel with
  | zero => intro t; simp [wrapTextF, nodesText, nodeText]
  | succ f ih =>
    intro t
    simp only [wrapTextF]
    cases hs : splitSearch p t with
    | none => simp [nodesText, nodeText]
    | some x =>
      obtain ⟨pre, m, rest⟩ := x
      by_cases hm : m = []
      · simp [hm, nodesText, nodeText]
      · have heq := splitSearch_eq t p (pre, m, rest) hs
        simp only at heq
        simp only [if_neg hm]
        simp [nodesText, nodeText, ih rest, ← heq, List.append_assoc]

theorem spanTexts_nlAppend : ∀ a b,
    spanTextsNodes (nlAppend a b) = spanTextsNodes a ++ spanTextsNodes b := by
  intro a b
  induction a using nlInd with
  | base => simp [nlAppend, spanTextsNodes]
  | step n ns ih => simp [nlAppend, spanTextsNodes, ih]

theorem wrapTextF_spans (st g : Str) :
    ∀ fuel t s, s ∈ spanTextsNodes (wrapTextF st [Piece.lit g] fuel t).1 → s = g := by
  intro fuel
  induction fuel with
  | zero => intro t s h; simp [wrapTextF, spanTextsNodes, spanTextsNode] at h
  | succ f ih =>
    intro t s h
    simp only [wrapTextF] at h
    cases hs : splitSearch [Piece.lit g] t with
    | none => rw [hs] at h; simp [spanTextsNodes, spanTextsNode] at h
    | some x =>
      obtain ⟨pre, m, rest⟩ := x
      rw [hs] at h
      dsimp only at h
      by_cases hm : m = []
      · rw [if_pos hm] at h; simp [spanTextsNodes, spanTextsNode] at h
      · rw [if_neg hm] at h
        have hmg : m = g := by simpa using splitSearch_lit t g (pre, m, rest) hs
        simp only [spanTextsNodes, spanTextsNode, nodesText, nodeText, List.nil_append,
          List.cons_append, List.append_nil, List.mem_cons] at h
        rcases h with h | h
        · exact h.trans hmg
        · exact ih rest s (by simpa using h)

theorem setSpanNodes_single (st : Str) (p : Pattern) (t : Str) :
    setSpanNodes st p (.cons (.text t) .nil) = ((wrapText st p t).1, (wrapText st p t).2) := by
  simp [setSpanNodes, setSpanNode, nlAppend_nil]

theorem set_span_stripped (q : Para) (name : Str) (p : Pattern) :
    set_span (remove_tree q) name p
      = (⟨q.style, (wrapText name p (text_recursive q)).1⟩,
         (wrapText name p (text_recursive q)).2) := by
  simp [set_span, remove_tree, setSpanNodes_single]

theorem text_recursive_wrapped (st : Option Str) (name : Str) (p : Pattern) (t : Str) :
    text_recursive ⟨st, (wrapText name p t).1⟩ = t := by
  simp [text_recursive, wrapText, wrapTextF_text]

theorem text_recursive_fallback (name : Str) (q : Para) :
    text_recursive (fallbackPara name q) = text_recursive q := by
  simp [fallbackPara, text_recursive, nodesText, nodeText]

theorem fallbackPara_idem (name : Str) (q : Para) :
    fallbackPara name (fallbackPara name q) = fallbackPara name q := by
  simp [fallbackPara, text_recursive, nodesText, nodeText]

theorem processPara_textstyle (doc : ODoc) (name : Str) (p : Pattern) (q : Para)
    (h1 : contentMatches p (text_recursive q) = true)
    (h2 : textStyleExists doc name = true) :
    Editor.processPara doc name p q
      = (⟨q.style, (wrapText name p (text_recursive q)).1⟩,
         (wrapText name p (text_recursive q)).2) := by
  unfold Editor.processPara
  simp [h1, h2, set_span_stripped]

theorem processPara_fallback (doc : ODoc) (name : Str) (p : Pattern) (q : Para)
    (h1 : contentMatches p (text_recursive q) = true)
    (h2 : textStyleExists doc name = false) :
    Editor.processPara doc name p q = (fallbackPara name q, 1) := by
  unfold Editor.processPara
  simp [h1, h2]

theorem processPara_nomatch (doc : ODoc) (name : Str) (p : Pattern) (q : Para)
    (h1 : contentMatches p (text_recursive q) = false) :
    Editor.processPara doc name p q = (q, 0) := by
  unfold Editor.processPara
  simp [h1]

theorem processPara_stable (doc : ODoc) (name : Str) (p : Pattern) (q : Para) :
    Editor.processPara doc name p (Editor.processPara doc name p q).1
      = Editor.processPara doc name p q := by
  by_cases h1 : contentMatches p (text_recursive q) = true
  · by_cases h2 : textStyleExists doc name = true
    · rw [processPara_textstyle doc name p q h1 h2]
      have ht : text_recursive (⟨q.style, (wrapText name p (text_recursive q)).1⟩ : Para)
          = text_recursive q := text_recursive_wrapped _ _ _ _
      rw [processPara_textstyle doc name p _ (by rw [ht]; exact h1) h2, ht]
    · have h2f : textStyleExists doc name = false := by
        simpa using h2
      rw [processPara_fallback doc name p q h1 h2f]
      have ht : text_recursive (fallbackPara name q) = text_recursive q :=
        text_recursive_fallback name q
      rw [processPara_fallback doc name p _ (by rw [ht]; exact h1) h2f,
        fallbackPara_idem]
  · have h1f : contentMatches p (text_recursive q) = false := by
      simpa using h1
    rw [processPara_nomatch doc name p q h1f, processPara_nomatch doc name p q h1f]

theorem styler_go_fallback (doc : ODoc) (name : Str) (regex0 : Pattern)
    (h : textStyleExists doc name = false) :
    ∀ (paras : List Para) (r : Pattern) (c : Nat),
      Styler.go doc name regex0 r c paras
        = .ok (paras.map (fun q =>
                 if contentMatches regex0 (text_recursive q) then fallbackPara name q else q),
               r,
               c + paras.countP (fun q => contentMatches regex0 (text_recursive q))) := by
  intro paras
  induction paras with
  | nil => intro r c; simp [Styler.go]
  | cons q rest ih =>
    intro r c
    simp only [Styler.go, ih, List.map_cons, List.countP_cons]
    by_cases hq : contentMatches regex0 (text_recursive q) = true
    · simp only [hq, h, if_true, Bool.false_eq_true, if_false, eq_self_iff_true,
        Except.ok.injEq, Prod.mk.injEq, true_and]
      omega
    · have hqf : contentMatches regex0 (text_recursive q) = false := by
        simp only [Bool.not_eq_true] at hq
        exact hq
      simp only [hqf, Bool.false_eq_true, if_false, eq_self_iff_true,
        Except.ok.injEq, Prod.mk.injEq, true_and]
      omega

theorem editor_rule_fallback (doc : ODoc) (name : Str) (p : Pattern)
    (h : textStyleExists doc name = false) :
    ∀ paras : List Para,
      Editor.ruleApply doc name p paras
        = (paras.map (fun q =>
             if contentMatches p (text_recursive q) then fallbackPara name q else q),
           paras.countP (fun q => contentMatches p (text_recursive q))) := by
  intro paras
  induction paras with
  | nil => simp [Editor.ruleApply]
  | cons q rest ih =>
    simp only [Editor.ruleApply, ih, List.map_cons, List.countP_cons]
    by_cases hq : contentMatches p (text_recursive q) = true
    · rw [processPara_fallback doc name p q hq h]
      simp only [hq, if_true, eq_self_iff_true, Prod.mk.injEq, true_and]
      omega
    · have hqf : contentMatches p (text_recursive q) = false := by
        simp only [Bool.not_eq_true] at hq
        exact hq
      rw [processPara_nomatch doc name p q hqf]
      simp only [hqf, Bool.false_eq_true, if_false, eq_self_iff_true,
        Prod.mk.injEq, true_and]
      omega

theorem editor_runGo_dry (store : Str → Except Str ODoc) (cfgs : List Editor.Config)
    (sfx : Str) : ∀ (files : List (FileName × ODoc)) (w : List (Str × ODoc))
    (t : List (Str × Info)),
    Editor.runGo store cfgs sfx true files w t = ⟨w, t⟩ := by
  intro files
  induction files with
  | nil => intro w t; rfl
  | cons fd rest ih =>
    intro w t
    obtain ⟨f, d⟩ := fd
    simp [Editor.runGo, ih]

theorem styler_runGo_dry_written (store : Str → Except Str ODoc)
    (cfgs : List Styler.Config) (sfx : Str) :
    ∀ (files : List (FileName × ODoc)) (w : List (Str × ODoc))
      (t : List (Str × Info)) (res : RunResult),
      Styler.runGo store cfgs sfx true files w t = .ok res → res.written = w := by
  intro files
  induction files with
  | nil =>
    intro w t res h
    simp only [Styler.runGo, Except.ok.injEq] at h
    rw [← h]
  | cons fd rest ih =>
    intro w t res h
    obtain ⟨f, d⟩ := fd
    simp only [Styler.runGo] at h
    cases ha : Styler.applyAll store d cfgs with
    | error e => rw [ha] at h; simp at h
    | ok dl =>
      obtain ⟨d1, logs⟩ := dl
      rw [ha] at h
      dsimp only at h
      cases hm : Styler.mergeTotals t logs with
      | error e => rw [hm] at h; simp at h
      | ok t1 =>
        rw [hm] at h
        dsimp only at h
        simp only [if_true] at h
        exact ih w t1 res h

theorem editor_runGo_written (store : Str → Except Str ODoc)
    (cfgs : List Editor.Config) (sfx : Str) :
    ∀ (files : List (FileName × ODoc)) (w : List (Str × ODoc))
      (t : List (Str × Info)),
      (Editor.runGo store cfgs sfx false files w t).written
        = w ++ files.map (fun fd => (outPath fd.1 sfx, (Editor.applyAll store fd.2 cfgs).1)) := by
  intro files
  induction files with
  | nil => intro w t; simp [Editor.runGo]
  | cons fd rest ih =>
    intro w t
    obtain ⟨f, d⟩ := fd
    simp [Editor.runGo, ih]

theorem editor_runGo_noconfig (store : Str → Except Str ODoc) (sfx : Str) :
    ∀ (files : List (FileName × ODoc)) (w : List (Str × ODoc))
      (t : List (Str × Info)),
      Editor.runGo store [] sfx false files w t
        = ⟨w ++ files.map (fun fd => (outPath fd.1 sfx, fd.2)), t⟩ := by
  intro files
  induction files with
  | nil => intro w t; simp [Editor.runGo]
  | cons fd rest ih =>
    intro w t
    obtain ⟨f, d⟩ := fd
    simp [Editor.runGo, Editor.applyAll, Editor.mergeTotals, ih]

theorem styler_runGo_noconfig (store : Str → Except Str ODoc) (sfx : Str) :
    ∀ (files : List (FileName × ODoc)) (w : List (Str × ODoc))
      (t : List (Str × Info)),
      Styler.runGo store [] sfx false files w t
        = .ok ⟨w ++ files.map (fun fd => (outPath fd.1 sfx, fd.2)), t⟩ := by
  intro files
  induction files with
  | nil => intro w t; simp [Styler.runGo]
  | cons fd rest ih =>
    intro w t
    obtain ⟨f, d⟩ := fd
    simp [Styler.runGo, Styler.applyAll, Styler.mergeTotals, ih]

theorem lookupTotal_setTotal : ∀ (ts : List (Str × Info)) (l : Str) (v : Info),
    lookupTotal (setTotal ts l v) l = some v := by
  intro ts
  induction ts with
  | nil => intro l v; simp [setTotal, lookupTotal]
  | cons kv rest ih =>
    intro l v
    obtain ⟨k, w⟩ := kv
    by_cases h : k = l
    · simp [setTotal, lookupTotal, h]
    · simp [setTotal, lookupTotal, h, ih]

end ODF

namespace ODF

/-- Claim C2 (corrected): only the editor variant strips pre-existing
inline spans before restyling.  In that variant re-running the same
RegexSpan rule is idempotent: the second run returns exactly the same
paragraphs and the same span count as the first run.  In the styler
variant the strip happens only in the no-text-style fallback branch,
so in the text-style branch pre-existing spans survive and a re-run
wraps new spans inside them (see the counterexample). -/
theorem C2_editor_rerun_idempotent (doc : ODoc) (name : Str) (p : Pattern)
    (paras : List Para) :
    Editor.ruleApply doc name p (Editor.ruleApply doc name p paras).1
      = Editor.ruleApply doc name p paras := by
  induction paras with
  | nil => simp [Editor.ruleApply]
  | cons q rest ih =>
    simp only [Editor.ruleApply]
    rw [processPara_stable, ih]

/-- Claim C2 counterexample: in the styler variant, applying the same
rule twice to a one-paragraph document (text `ab`, text style `S`
present, pattern `ab`) leaves one span after the first run but two
nested spans after the second: the pre-existing span markup was not
removed and the spans stack. -/
theorem C2_counterexample :
    ∃ (d1 d2 : ODoc) (lg1 lg2 : List (Str × Info)),
      Styler.regexApply docab nameS [Piece.lit (chars "ab")] = .ok (d1, lg1)
      ∧ Styler.regexApply d1 nameS [Piece.lit (chars "ab")] = .ok (d2, lg2)
      ∧ (d1.paras.map fun q => spanCountNodes q.nodes) = [1]
      ∧ (d2.paras.map fun q => spanCountNodes q.nodes) = [2] :=
  ⟨_, _, _, _, rfl, rfl, rfl, rfl⟩

/-- Claim C3 (confirmed): for a RegexSpan rule whose style name does
not exist as a text-family style in the target document, both
variants set the paragraph-level style attribute of every matching
paragraph to that name (after stripping span markup) and the logged
integer outcome is exactly the number of matching paragraphs. -/
theorem C3_fallback_styles_paragraphs (doc : ODoc) (name : Str) (p : Pattern)
    (h : textStyleExists doc name = false) :
    Styler.regexApply doc name p
      = .ok ({ doc with paras := doc.paras.map (fun q =>
                 if contentMatches p (text_recursive q) then fallbackPara name q else q) },
             [(appliedLabel name,
               Info.int (doc.paras.countP (fun q => contentMatches p (text_recursive q))))])
    ∧ Editor.ruleApply doc name p doc.paras
      = (doc.paras.map (fun q =>
           if contentMatches p (text_recursive q) then fallbackPara name q else q),
         doc.paras.countP (fun q => contentMatches p (text_recursive q)))
    ∧ ∀ q : Para, (fallbackPara name q).style = some name := by
  refine ⟨?_, editor_rule_fallback doc name p h doc.paras, fun q => rfl⟩
  simp only [Styler.regexApply, styler_go_fallback doc name p h doc.paras p 0]
  simp

/-- Claim C3 witness: the fallback characterization evaluated on a
two-paragraph document (`xab` and `zz`, no styles defined) with
pattern `ab`: the first paragraph matches and is restyled, the count
is 1. -/
theorem C3_witness :
    Styler.regexApply docTwo nameS [Piece.lit (chars "ab")]
      = .ok ({ docTwo with paras := docTwo.paras.map (fun q =>
                 if contentMatches [Piece.lit (chars "ab")] (text_recursive q)
                 then fallbackPara nameS q else q) },
             [(appliedLabel nameS,
               Info.int (docTwo.paras.countP (fun q =>
                 contentMatches [Piece.lit (chars "ab")] (text_recursive q))))])
    ∧ Editor.ruleApply docTwo nameS [Piece.lit (chars "ab")] docTwo.paras
      = (docTwo.paras.map (fun q =>
           if contentMatches [Piece.lit (chars "ab")] (text_recursive q)
           then fallbackPara nameS q else q),
         docTwo.paras.countP (fun q =>
           contentMatches [Piece.lit (chars "ab")] (text_recursive q)))
    ∧ ∀ q : Para, (fallbackPara nameS q).style = some nameS :=
  C3_fallback_styles_paragraphs docTwo nameS [Piece.lit (chars "ab")] (by decide)

end ODF

namespace ODF

/-- Claim C5 (corrected): only the editor variant makes dry run a
no-op: it skips the file before opening it, so nothing is written and
the Totals stay empty for every input.  The styler variant skips only
the save: no output file is written, but the document is still opened,
every modifier still runs, and the Totals are still updated (see the
counterexample). -/
theorem C5_dry_run (store : Str → Except Str ODoc) :
    (∀ (files : List (FileName × ODoc)) (cfgs : List Editor.Config) (sfx : Str),
       Editor.run store files cfgs true sfx = ⟨[], []⟩)
    ∧ (∀ (files : List (FileName × ODoc)) (cfgs : List Styler.Config) (sfx : Str)
         (res : RunResult),
       Styler.run store files cfgs true sfx = .ok res → res.written = []) := by
  constructor
  · intro files cfgs sfx
    exact editor_runGo_dry store cfgs sfx files [] []
  · intro files cfgs sfx res h
    exact styler_runGo_dry_written store cfgs sfx files [] [] res h

/-- Claim C5 witness: a styler dry run over one file with one
RegexSpan rule completes with no file written (while its totals are
updated, which is what the counterexample exhibits). -/
theorem C5_witness :
    Styler.run storeFail [(fileA, docNoStyle)]
        [Styler.Config.regexStyle nameS [Piece.lit (chars "ab")]] true (chars "_EDITED")
      = .ok ⟨[], [(appliedLabel nameS, Info.int 1)]⟩
    ∧ (⟨[], [(appliedLabel nameS, Info.int 1)]⟩ : RunResult).written = [] :=
  ⟨rfl,
   (C5_dry_run storeFail).2 [(fileA, docNoStyle)]
     [Styler.Config.regexStyle nameS [Piece.lit (chars "ab")]] (chars "_EDITED")
     ⟨[], [(appliedLabel nameS, Info.int 1)]⟩ rfl⟩

/-- Claim C5 counterexample: the same styler dry run leaves the
Totals non-empty — the modifier did run and did count its match, even
though the claim says no modifier is applied and the Totals map is
left unchanged. -/
theorem C5_counterexample :
    Styler.run storeFail [(fileA, docNoStyle)]
        [Styler.Config.regexStyle nameS [Piece.lit (chars "ab")]] true (chars "_EDITED")
      = .ok ⟨[], [(appliedLabel nameS, Info.int 1)]⟩
    ∧ [(appliedLabel nameS, Info.int 1)] ≠ ([] : List (Str × Info)) :=
  ⟨rfl, by decide⟩

/-- Claim C6 (corrected): `StyleImporter.apply` never raises — a
document-store failure is caught and becomes an `Error:` status
outcome, and apply always returns exactly one log entry — but
`RegexStyler.apply` has no such guard: in the styler variant a
re-search that finds nothing raises an uncaught `AttributeError`
(see the counterexample), aborting the batch. -/
theorem C6_importer_catches (store : Str → Except Str ODoc) :
    (∀ (doc : ODoc) (n fam src e : Str), store src = .error e →
       Styler.importApply store doc n fam src
           = (doc, [(Styler.importLabel fam n, Info.str (errMsg e))])
       ∧ Editor.importApply store doc n fam src
           = (doc, [(Editor.importLabel fam n, Info.str (errMsg e))]))
    ∧ (∀ (doc : ODoc) (n fam src : Str),
       (Styler.importApply store doc n fam src).2.length = 1
       ∧ (Editor.importApply store doc n fam src).2.length = 1) := by
  constructor
  · intro doc n fam src e h
    constructor <;> simp [Styler.importApply, Editor.importApply, h]
  · intro doc n fam src
    constructor
    · rcases hss : store src with e | ref
      · simp [Styler.importApply, hss]
      · rcases hgs : get_style ref fam n with _ | el
        · simp [Styler.importApply, hss, hgs]
        · cases el <;> simp [Styler.importApply, hss, hgs]
    · rcases hss : store src with e | ref
      · simp [Editor.importApply, hss]
      · rcases hgs : get_style ref fam n with _ | el
        · simp [Editor.importApply, hss, hgs]
        · cases el <;> simp [Editor.importApply, hss, hgs]

/-- Claim C6 witness: with a store in which every open fails, both
importers return the target unchanged together with the `Error:`
outcome built from the raised message. -/
theorem C6_witness :
    Styler.importApply storeFail docNoStyle nameS (chars "text") (chars "ref.odt")
        = (docNoStyle,
           [(Styler.importLabel (chars "text") nameS,
             Info.str (errMsg (chars "no such file")))])
    ∧ Editor.importApply storeFail docNoStyle nameS (chars "text") (chars "ref.odt")
        = (docNoStyle,
           [(Editor.importLabel (chars "text") nameS,
             Info.str (errMsg (chars "no such file")))]) :=
  (C6_importer_catches storeFail).1 docNoStyle nameS (chars "text") (chars "ref.odt")
    (chars "no such file") rfl

/-- Claim C6 counterexample: the styler `RegexStyler.apply` raises an
uncaught exception: on the document with paragraphs `U:ab` and `U:xy`
and the pattern `U:(.*)`, the first paragraph's captured text `ab`
overwrites the rule pattern, the re-search on `U:xy` returns `None`,
and `.group(1)` raises an `AttributeError` that no handler catches. -/
theorem C6_counterexample :
    Styler.regexApply docUxy nameS patU = .error attrErr := rfl

/-- Claim C7 (corrected): the totals merge policy: integer outcomes
sum onto the stored integer in both variants (starting from the
default 0 for a fresh label); a status outcome is stored
last-write-wins in the styler variant, but the editor variant drops
status outcomes entirely — nothing is ever stored for them (see the
counterexample). -/
theorem C7_totals_merge_policy :
    (∀ (ts : List (Str × Info)) (l s : Str),
       Styler.updateTotal ts l (Info.str s) = .ok (setTotal ts l (Info.str s))
       ∧ lookupTotal (setTotal ts l (Info.str s)) l = some (Info.str s)
       ∧ Editor.updateTotal ts l (Info.str s) = ts)
    ∧ (∀ (ts : List (Str × Info)) (l : Str) (n m : Nat),
       lookupTotal ts l = some (Info.int m) →
       Styler.updateTotal ts l (Info.int n) = .ok (setTotal ts l (Info.int (m + n)))
       ∧ Editor.updateTotal ts l (Info.int n) = setTotal ts l (Info.int (m + n)))
    ∧ (∀ (ts : List (Str × Info)) (l : Str) (n : Nat),
       lookupTotal ts l = none →
       Styler.updateTotal ts l (Info.int n) = .ok (setTotal ts l (Info.int n))
       ∧ Editor.updateTotal ts l (Info.int n) = setTotal ts l (Info.int n)) := by
  refine ⟨?_, ?_, ?_⟩
  · intro ts l s
    exact ⟨rfl, lookupTotal_setTotal ts l (Info.str s), rfl⟩
  · intro ts l n m h
    constructor
    · simp [Styler.updateTotal, h]
    · simp [Editor.updateTotal, Editor.getIntTotal, h]
  · intro ts l n h
    constructor
    · simp [Styler.updateTotal, h]
    · simp [Editor.updateTotal, Editor.getIntTotal, h]

/-- Claim C7 witness: summing an integer outcome onto an existing
integer total for the same label, in both variants. -/
theorem C7_witness :
    Styler.updateTotal [(chars "L", Info.int 2)] (chars "L") (Info.int 3)
        = .ok (setTotal [(chars "L", Info.int 2)] (chars "L") (Info.int (2 + 3)))
    ∧ Editor.updateTotal [(chars "L", Info.int 2)] (chars "L") (Info.int 3)
        = setTotal [(chars "L", Info.int 2)] (chars "L") (Info.int (2 + 3)) :=
  (C7_totals_merge_policy).2.1 [(chars "L", Info.int 2)] (chars "L") 3 2 rfl

/-- Claim C7 counterexample: in the editor variant a status outcome
(`Not found in source`, logged by a StyleImporter) is never stored:
after the run the Totals map is empty, while the claim says the stored
value is overwritten with the most recent status value. -/
theorem C7_counterexample :
    (Editor.run storeEmptyRef [(fileA, docNoStyle)]
        [Editor.Config.importStyle nameS (chars "text") (chars "ref.odt")]
        false (chars "_E")).totals = []
    ∧ (Editor.applyAll storeEmptyRef docNoStyle
        [Editor.Config.importStyle nameS (chars "text") (chars "ref.odt")]).2
      = [(Editor.importLabel (chars "text") nameS, Info.str notFoundMsg)] :=
  ⟨rfl, rfl⟩

/-- Claim C8 (corrected): the output path is formed from the original
directory, stem, suffix and extension in that order, and for every
NON-EMPTY suffix it differs from the original path; with an empty
suffix, however, the output path equals the original path and the run
writes over the original file (see the counterexample). -/
theorem C8_output_paths :
    (∀ (f : FileName) (sfx : Str), sfx ≠ [] → outPath f sfx ≠ inPath f)
    ∧ (∀ (store : Str → Except Str ODoc) (files : List (FileName × ODoc))
         (cfgs : List Editor.Config) (sfx : Str),
       (Editor.run store files cfgs false sfx).written.map Prod.fst
         = files.map (fun fd => outPath fd.1 sfx)) := by
  constructor
  · intro f sfx hne heq
    have hl := congrArg List.length heq
    simp only [outPath, inPath, List.length_append] at hl
    have hz : sfx.length = 0 := by omega
    exact hne (List.eq_nil_of_length_eq_zero hz)
  · intro store files cfgs sfx
    unfold Editor.run
    rw [editor_runGo_written]
    simp [List.map_map, Function.comp]

/-- Claim C8 witness: with the default-style suffix `_E` the output
path of `d/a.odt` differs from the original path. -/
theorem C8_witness : outPath fileA (chars "_E") ≠ inPath fileA :=
  (C8_output_paths).1 fileA (chars "_E") (by decide)

/-- Claim C8 counterexample: with the empty suffix the derived output
path IS the original path, and a run writes the (possibly modified)
document to the original path — the original file is overwritten. -/
theorem C8_counterexample :
    outPath fileA [] = inPath fileA
    ∧ (Editor.run storeEmptyRef [(fileA, docNoStyle)] [] false []).written
      = [(inPath fileA, docNoStyle)] :=
  ⟨rfl, rfl⟩

/-- Claim C9 (confirmed): when the style lookup in the source document
returns nothing, or returns an element that is not a genuine style
object, both variants log the `Not found in source` status and return
the target document completely unchanged — no insertion happens. -/
theorem C9_notfound_no_insert (store : Str → Except Str ODoc) (doc ref : ODoc)
    (n fam src : Str)
    (hopen : store src = .ok ref)
    (h : isStyleElem (get_style ref fam n) = false) :
    Styler.importApply store doc n fam src
        = (doc, [(Styler.importLabel fam n, Info.str notFoundMsg)])
    ∧ Editor.importApply store doc n fam src
        = (doc, [(Editor.importLabel fam n, Info.str notFoundMsg)]) := by
  rcases hgs : get_style ref fam n with _ | el
  · constructor <;> simp [Styler.importApply, Editor.importApply, hopen, hgs]
  · cases el with
    | style f nm c => rw [hgs] at h; simp [isStyleElem] at h
    | other f nm tg =>
      constructor <;> simp [Styler.importApply, Editor.importApply, hopen, hgs]

/-- Claim C9 witness: importing style `S` from an empty source
document leaves the target untouched and logs `Not found in source`
in both variants. -/
theorem C9_witness :
    Styler.importApply storeEmptyRef docNoStyle nameS (chars "text") (chars "ref.odt")
        = (docNoStyle, [(Styler.importLabel (chars "text") nameS, Info.str notFoundMsg)])
    ∧ Editor.importApply storeEmptyRef docNoStyle nameS (chars "text") (chars "ref.odt")
        = (docNoStyle, [(Editor.importLabel (chars "text") nameS, Info.str notFoundMsg)]) :=
  C9_notfound_no_insert storeEmptyRef docNoStyle ⟨[], []⟩ nameS (chars "text")
    (chars "ref.odt") rfl (by decide)

/-- Claim C10 (confirmed): with an empty modifier configuration and
dry run disabled, both variants still open every matched file and
write an unchanged copy of it at the suffixed output path, while the
Totals map stays empty. -/
theorem C10_empty_config_still_writes :
    ∀ (store : Str → Except Str ODoc) (files : List (FileName × ODoc)) (sfx : Str),
      Editor.run store files [] false sfx
          = ⟨files.map (fun fd => (outPath fd.1 sfx, fd.2)), []⟩
      ∧ Styler.run store files [] false sfx
          = .ok ⟨files.map (fun fd => (outPath fd.1 sfx, fd.2)), []⟩ := by
  intro store files sfx
  constructor
  · unfold Editor.run
    rw [editor_runGo_noconfig]
    simp
  · unfold Styler.run
    rw [styler_runGo_noconfig]
    simp

end ODF

namespace ODF

/-- Claim C1 (corrected): group-1 scoping exists only in the styler
variant, and there it holds per paragraph through the mutable rule
pattern: for a rule whose style name exists as a text-family style and
a single-paragraph plain-text document where the pattern's search
yields capturing-group text `g`, the rule succeeds and every span it
wraps carries exactly the text `g`, not the full match.  (The editor
variant always styles the full match — see the counterexample — and
in the styler variant the captured text overwrites the rule pattern
used for the remaining paragraphs, see C4.) -/
theorem C1_styler_group1_span (styles : List Element) (st0 : Option Str)
    (name t full g : Str) (p : Pattern)
    (hst : textStyleExists ⟨styles, [⟨st0, .cons (.text t) .nil⟩]⟩ name = true)
    (hse : searchFrom p t = some (full, some g)) :
    ∃ (k : Nat) (ps : List Para),
      Styler.regexApply ⟨styles, [⟨st0, .cons (.text t) .nil⟩]⟩ name p
        = .ok (⟨styles, ps⟩, [(appliedLabel name, Info.int k)])
      ∧ ∀ q ∈ ps, ∀ s ∈ spanTextsNodes q.nodes, s = g := by
  have htxt : text_recursive (⟨st0, .cons (.text t) .nil⟩ : Para) = t := by
    simp [text_recursive, nodesText, nodeText]
  have hcm : contentMatches p t = true := by
    simp [contentMatches, hse]
  have hgo : Styler.go ⟨styles, [⟨st0, .cons (.text t) .nil⟩]⟩ name p p 0
        [⟨st0, .cons (.text t) .nil⟩]
      = .ok ([(set_span ⟨st0, .cons (.text t) .nil⟩ name [Piece.lit g]).1],
             [Piece.lit g],
             0 + (set_span ⟨st0, .cons (.text t) .nil⟩ name [Piece.lit g]).2) := by
    simp only [Styler.go, hcm, hst, htxt, hse, if_true, eq_self_iff_true]
  refine ⟨0 + (set_span ⟨st0, .cons (.text t) .nil⟩ name [Piece.lit g]).2,
          [(set_span ⟨st0, .cons (.text t) .nil⟩ name [Piece.lit g]).1], ?_, ?_⟩
  · unfold Styler.regexApply
    dsimp only
    rw [hgo]
  · intro q hq s hs
    have hq1 : q = (set_span ⟨st0, .cons (.text t) .nil⟩ name [Piece.lit g]).1 := by
      simpa using hq
    have hn : (set_span (⟨st0, .cons (.text t) .nil⟩ : Para) name [Piece.lit g]).1.nodes
        = (wrapText name [Piece.lit g] t).1 := by
      simp [set_span, setSpanNodes_single]
    rw [hq1, hn] at hs
    exact wrapTextF_spans name g (t.length + 1) t s (by simpa [wrapText] using hs)

/-- Claim C1 witness: style `S` is a text style, the pattern `A(B)`
(literal `A`, capturing group `B`) matches the paragraph `AB` with
group text `B`, and every wrapped span carries exactly `B`. -/
theorem C1_witness :
    ∃ (k : Nat) (ps : List Para),
      Styler.regexApply ⟨[styleS], [⟨none, .cons (.text (chars "AB")) .nil⟩]⟩ nameS
          [Piece.lit (chars "A"), Piece.grp (chars "B")]
        = .ok (⟨[styleS], ps⟩, [(appliedLabel nameS, Info.int k)])
      ∧ ∀ q ∈ ps, ∀ s ∈ spanTextsNodes q.nodes, s = chars "B" :=
  C1_styler_group1_span [styleS] none nameS (chars "AB") (chars "AB") (chars "B")
    [Piece.lit (chars "A"), Piece.grp (chars "B")] (by decide) (by decide)

/-- Claim C1 counterexample: in the editor variant the same rule
(style `S` a text style, pattern `A(B)` with a capturing group) styles
the paragraph `AB` by wrapping the FULL match `AB`, not the captured
group `B`: the styled span's text is `AB`, which differs from the
group-1 text `B`. -/
theorem C1_counterexample :
    ((Editor.ruleApply docAB nameS [Piece.lit (chars "A"), Piece.grp (chars "B")]
        docAB.paras).1.map (fun q => spanTextsNodes q.nodes))
      = [[chars "AB"]]
    ∧ chars "AB" ≠ chars "B" :=
  ⟨rfl, by decide⟩

/-- Claim C4 (corrected): the styler variant does re-evaluate the
pattern for each matching paragraph, but not independently: a
successful group capture overwrites the rule's mutable pattern, so
after the first paragraph yields group text `g1` every later
paragraph is searched and styled with the literal pattern `g1` rather
than the original rule pattern; and when that search finds nothing the
code raises instead of falling back (C6).  With two matching
paragraphs where `g1` occurs in the second paragraph's text, both
paragraphs end up styled by `[Piece.lit g1]`. -/
theorem C4_styler_pattern_mutation (doc : ODoc) (name : Str) (regex0 : Pattern)
    (q1 q2 : Para) (full1 g1 : Str)
    (hm1 : contentMatches regex0 (text_recursive q1) = true)
    (hm2 : contentMatches regex0 (text_recursive q2) = true)
    (hst : textStyleExists doc name = true)
    (hs1 : searchFrom regex0 (text_recursive q1) = some (full1, some g1))
    (hs2 : (searchFrom [Piece.lit g1] (text_recursive q2)).isSome = true) :
    Styler.go doc name regex0 regex0 0 [q1, q2]
      = .ok ([(set_span q1 name [Piece.lit g1]).1, (set_span q2 name [Piece.lit g1]).1],
             [Piece.lit g1],
             0 + (set_span q1 name [Piece.lit g1]).2
               + (set_span q2 name [Piece.lit g1]).2) := by
  obtain ⟨r2, hr2⟩ := Option.isSome_iff_exists.mp hs2
  have hr2e : searchFrom [Piece.lit g1] (text_recursive q2) = some (g1 ++ [], none) := by
    rw [hr2]
    exact congrArg some (searchFrom_lit _ g1 r2 hr2)
  simp only [Styler.go, hm1, hm2, hst, hs1, hr2e, if_true, eq_self_iff_true]

/-- Claim C4 witness: on the document with paragraphs `U:ab` and
`U:abcd` (style `S` a text style) and the rule pattern `U:(.*)`, the
first paragraph captures `ab` and both paragraphs are styled with the
literal pattern `ab`. -/
theorem C4_witness :
    Styler.go docU2 nameS patU patU 0 docU2.paras
      = .ok ([(set_span ⟨none, .cons (.text (chars "U:ab")) .nil⟩ nameS
                 [Piece.lit (chars "ab")]).1,
              (set_span ⟨none, .cons (.text (chars "U:abcd")) .nil⟩ nameS
                 [Piece.lit (chars "ab")]).1],
             [Piece.lit (chars "ab")],
             0 + (set_span ⟨none, .cons (.text (chars "U:ab")) .nil⟩ nameS
                    [Piece.lit (chars "ab")]).2
               + (set_span ⟨none, .cons (.text (chars "U:abcd")) .nil⟩ nameS
                    [Piece.lit (chars "ab")]).2) :=
  C4_styler_pattern_mutation docU2 nameS patU
    ⟨none, .cons (.text (chars "U:ab")) .nil⟩
    ⟨none, .cons (.text (chars "U:abcd")) .nil⟩
    (chars "U:ab") (chars "ab")
    (by decide) (by decide) (by decide) (by decide) (by decide)

/-- Claim C4 counterexample: on the same document the second
paragraph `U:abcd` ends up with a span wrapping `ab` — the first
paragraph's captured text — although its own capturing-group match
under the rule pattern is `abcd`: the resolution for the first
paragraph did change what is styled in the later paragraph. -/
theorem C4_counterexample :
    ∃ (d : ODoc) (lg : List (Str × Info)),
      Styler.regexApply docU2 nameS patU = .ok (d, lg)
      ∧ (d.paras.map fun q => spanTextsNodes q.nodes) = [[chars "ab"], [chars "ab"]]
      ∧ searchFrom patU (chars "U:abcd") = some (chars "U:abcd", some (chars "abcd"))
      ∧ chars "ab" ≠ chars "abcd" :=
  ⟨_, _, rfl, rfl, rfl, by decide⟩

end ODF
